import Mathlib

/-!
Verification of the geoguessr-scripts repository against its specification.

Python strings are modelled as `List Char` (`Str`); all Python string
operations used by the code are embedded as executable Lean functions.
-/

set_option maxRecDepth 10000

/-- Python strings are sequences of characters. -/
abbrev Str := List Char

/-- Coerce a Lean string literal to the `Str` model. -/
def str (s : String) : Str := s.data

/-- The single-quote character, written via its code point. -/
def quoteChar : Char := Char.ofNat 39

/-- Python `str.startswith`. -/
def pyStartsWith (pre s : Str) : Bool := List.isPrefixOf pre s

/-- Whitespace characters recognised by Python's `str.strip` and `\s`
(restricted to the ASCII range, which covers all inputs considered here). -/
def isPySpace (c : Char) : Bool :=
  c = ' ' || c = '\t' || c = '\n' || c = '\x0d' || c = '\x0b' || c = '\x0c'

/-- Python `str.strip()`: remove leading and trailing whitespace. -/
def pyStrip (s : Str) : Str :=
  ((s.dropWhile isPySpace).reverse.dropWhile isPySpace).reverse

/-! ## Cell Resolver literal escaping (`_string_to_xpath_expr`, scrape.py) -/

/-- Python `s.split("'")`: split on every single-quote character. -/
def pySplitQuote : Str → List Str
  | [] => [[]]
  | c :: rest =>
    if c = quoteChar then [] :: pySplitQuote rest
    else
      match pySplitQuote rest with
      | p :: ps => (c :: p) :: ps
      | [] => [[c]]

/-- Wrap a quote-free part as a single-quoted XPath literal. -/
def xpWrap (p : Str) : Str := quoteChar :: p ++ [quoteChar]

/-- Embedding of `_string_to_xpath_expr` from `learnable_meta_anki/scrape.py`:
if the string contains a single quote, split on it and re-join the parts as an
XPath `concat(...)` expression interleaving the literal `"'"`; otherwise wrap
the whole string in single quotes. -/
def stringToXPathExpr (s : Str) : Str :=
  if quoteChar ∈ s then
    let parts := pySplitQuote s
    let joined := List.intercalate (str ", \"'\", ") (parts.map xpWrap)
    str "concat(" ++ joined ++ str ")"
  else
    xpWrap s

/-! ### A small XPath string-expression evaluator

Models the fragment of the XPath 1.0 grammar the generated queries use:
a string literal is `'...'` (no single quote inside) or `"..."` (no double
quote inside), and `concat(e1, e2, ...)` evaluates to the concatenation of
its arguments.  This definition follows the XPath specification, not the
Python code; it is the semantic yardstick the claim is checked against. -/

/-- Parse a leading XPath string literal; return its value and the rest. -/
def parseLit : Str → Option (Str × Str)
  | c :: rest =>
    if c = quoteChar then
      match rest.dropWhile (fun d => d ≠ quoteChar) with
      | d :: r => if d = quoteChar then some (rest.takeWhile (fun e => e ≠ quoteChar), r) else none
      | [] => none
    else if c = '"' then
      match rest.dropWhile (fun d => d ≠ '"') with
      | d :: r => if d = '"' then some (rest.takeWhile (fun e => e ≠ '"'), r) else none
      | [] => none
    else none
  | [] => none

/-- Skip whitespace between tokens. -/
def dropSpaces (s : Str) : Str := s.dropWhile isPySpace

/-- Parse a comma-separated list of string literals terminated by a closing
parenthesis; the fuel bounds the number of arguments. -/
def parseArgs : Nat → Str → Option (List Str × Str)
  | 0, _ => none
  | fuel + 1, s =>
    match parseLit (dropSpaces s) with
    | none => none
    | some (v, r) =>
      match dropSpaces r with
      | c :: r2 =>
        if c = ')' then some ([v], r2)
        else if c = ',' then
          match parseArgs fuel r2 with
          | some (vs, r3) => some (v :: vs, r3)
          | none => none
        else none
      | [] => none

/-- Evaluate an XPath string expression: either `concat(lit, ..., lit)` or a
single literal.  Returns `none` when the text is not a valid expression. -/
def evalXPathStringExpr (s : Str) : Option Str :=
  if pyStartsWith (str "concat(") s then
    match parseArgs (s.length + 1) (s.drop 7) with
    | some (vs, []) => some vs.flatten
    | _ => none
  else
    match parseLit s with
    | some (v, []) => some v
    | _ => none

/-! ### Lemmas about the split -/

theorem pySplitQuote_ne_nil (s : Str) : pySplitQuote s ≠ [] := by
  induction s with
  | nil => simp [pySplitQuote]
  | cons c rest ih =>
    simp only [pySplitQuote]
    split
    · simp
    · cases h : pySplitQuote rest with
      | nil => exact absurd h ih
      | cons p ps => simp

theorem pySplitQuote_intercalate (s : Str) :
    List.intercalate [quoteChar] (pySplitQuote s) = s := by
  induction s with
  | nil => simp [pySplitQuote, List.intercalate]
  | cons c rest ih =>
    simp only [pySplitQuote]
    split
    · rename_i hc
      cases h : pySplitQuote rest with
      | nil => exact absurd h (pySplitQuote_ne_nil rest)
      | cons p ps =>
        rw [h] at ih
        simp only [List.intercalate, List.intersperse] at ih ⊢
        cases ps with
        | nil => simp at ih ⊢; simp [hc, ih]
        | cons q qs => simp at ih ⊢; simp [hc, ih]
    · cases h : pySplitQuote rest with
      | nil => exact absurd h (pySplitQuote_ne_nil rest)
      | cons p ps =>
        rw [h] at ih
        simp only [List.intercalate, List.intersperse] at ih ⊢
        cases ps with
        | nil => simp at ih ⊢; simp [ih]
        | cons q qs => simp at ih ⊢; simp [ih]

theorem pySplitQuote_no_quote (s : Str) :
    ∀ p ∈ pySplitQuote s, quoteChar ∉ p := by
  induction s with
  | nil => intro p hp; simp [pySplitQuote] at hp; simp [hp]
  | cons c rest ih =>
    intro p hp
    simp only [pySplitQuote] at hp
    split at hp
    · rcases List.mem_cons.mp hp with h | h
      · simp [h]
      · exact ih p h
    · rename_i hc
      cases h : pySplitQuote rest with
      | nil => exact absurd h (pySplitQuote_ne_nil rest)
      | cons q qs =>
        rw [h] at hp
        rcases List.mem_cons.mp hp with hp | hp
        · subst hp
          intro hmem
          rcases List.mem_cons.mp hmem with h1 | h1
          · exact hc h1.symm
          · exact ih q (h ▸ List.mem_cons_self q qs) h1
        · exact ih p (h ▸ List.mem_cons_of_mem q hp)

/-! ### Parser correctness on the generated expression -/

/-- The argument list the Python join produces, written recursively. -/
def printedArgs : List Str → Str
  | [] => []
  | [p] => xpWrap p
  | p :: ps => xpWrap p ++ str ", \"'\", " ++ printedArgs ps

/-- The literal values of the generated arguments: the parts interleaved
with the single-quote literal. -/
def valsOf : List Str → List Str
  | [] => []
  | [p] => [p]
  | p :: ps => p :: [quoteChar] :: valsOf ps

theorem intercalate_map_xpWrap (parts : List Str) :
    List.intercalate (str ", \"'\", ") (parts.map xpWrap) = printedArgs parts := by
  induction parts with
  | nil => simp [printedArgs, List.intercalate]
  | cons p ps ih =>
    cases ps with
    | nil => simp [printedArgs, List.intercalate]
    | cons q qs =>
      simp only [List.map_cons, List.intercalate, List.intersperse] at ih ⊢
      simp at ih ⊢
      simp [printedArgs, ← ih]

theorem flatten_valsOf (parts : List Str) :
    (valsOf parts).flatten = List.intercalate [quoteChar] parts := by
  induction parts with
  | nil => simp [valsOf, List.intercalate]
  | cons p ps ih =>
    cases ps with
    | nil => simp [valsOf, List.intercalate]
    | cons q qs =>
      simp only [List.intercalate, List.intersperse] at ih ⊢
      simp at ih ⊢
      simp [valsOf, ih]

theorem dropWhile_neq_append (p : Str) (d : Char) (rest : Str) (h : d ∉ p) :
    (p ++ d :: rest).dropWhile (fun e => decide (e ≠ d)) = d :: rest := by
  induction p with
  | nil => simp [List.dropWhile_cons]
  | cons c cs ih =>
    simp only [List.mem_cons, not_or] at h
    have hcd : c ≠ d := fun hh => h.1 hh.symm
    rw [List.cons_append, List.dropWhile_cons, if_pos (decide_eq_true hcd)]
    exact ih h.2

theorem takeWhile_neq_append (p : Str) (d : Char) (rest : Str) (h : d ∉ p) :
    (p ++ d :: rest).takeWhile (fun e => decide (e ≠ d)) = p := by
  induction p with
  | nil => simp [List.takeWhile_cons]
  | cons c cs ih =>
    simp only [List.mem_cons, not_or] at h
    have hcd : c ≠ d := fun hh => h.1 hh.symm
    rw [List.cons_append, List.takeWhile_cons, if_pos (decide_eq_true hcd), ih h.2]

theorem parseLit_wrap (p rest : Str) (h : quoteChar ∉ p) :
    parseLit (quoteChar :: (p ++ quoteChar :: rest)) = some (p, rest) := by
  simp only [parseLit, if_pos rfl]
  rw [dropWhile_neq_append p quoteChar rest h, takeWhile_neq_append p quoteChar rest h]
  simp

theorem parseLit_quoteLiteral (rest : Str) :
    parseLit ('"' :: quoteChar :: '"' :: rest) = some ([quoteChar], rest) := by
  have h1 : ¬ ('"' = quoteChar) := by decide
  have h2 : quoteChar ≠ '"' := by decide
  simp [parseLit, h1, h2, List.dropWhile_cons, List.takeWhile_cons]

theorem dropSpaces_nospace (c : Char) (h : isPySpace c = false) (s : Str) :
    dropSpaces (c :: s) = c :: s := by
  simp [dropSpaces, List.dropWhile_cons, h]

theorem dropSpaces_space (s : Str) : dropSpaces (' ' :: s) = dropSpaces s := by
  have h : isPySpace ' ' = true := by decide
  simp [dropSpaces, List.dropWhile_cons, h]

theorem parseArgs_space (fuel : Nat) (s : Str) :
    parseArgs fuel (' ' :: s) = parseArgs fuel s := by
  cases fuel with
  | zero => rfl
  | succ f => simp only [parseArgs, dropSpaces_space]

theorem parseArgs_printed (parts : List Str) :
    ∀ (fuel : Nat) (tail : Str), parts ≠ [] → (∀ p ∈ parts, quoteChar ∉ p) →
    2 * parts.length ≤ fuel →
    parseArgs fuel (printedArgs parts ++ ')' :: tail) = some (valsOf parts, tail) := by
  induction parts with
  | nil => intro fuel tail hne; exact absurd rfl hne
  | cons p ps ih =>
    intro fuel tail _ hq hf
    have hqp : quoteChar ∉ p := hq p (List.mem_cons_self p ps)
    cases ps with
    | nil =>
      obtain ⟨f, rfl⟩ : ∃ f, fuel = f + 1 := ⟨fuel - 1, by simp at hf; omega⟩
      have h1 : printedArgs [p] ++ ')' :: tail = quoteChar :: (p ++ quoteChar :: ')' :: tail) := by
        simp [printedArgs, xpWrap]
      rw [h1]
      simp only [parseArgs, dropSpaces_nospace quoteChar (by decide),
        parseLit_wrap p (')' :: tail) hqp, dropSpaces_nospace ')' (by decide)]
      simp [valsOf]
    | cons q qs =>
      obtain ⟨f, rfl⟩ : ∃ f, fuel = f + 2 := ⟨fuel - 2, by simp at hf; omega⟩
      have hsep : printedArgs (p :: q :: qs) ++ ')' :: tail =
          quoteChar :: (p ++ quoteChar :: ',' :: ' ' :: '"' :: quoteChar :: '"' :: ',' :: ' ' ::
            (printedArgs (q :: qs) ++ ')' :: tail)) := by
        have hs : str ", \"'\", " = [',', ' ', '"', quoteChar, '"', ',', ' '] := by decide
        simp [printedArgs, xpWrap, hs]
      rw [hsep]
      simp only [parseArgs, dropSpaces_nospace quoteChar (by decide),
        parseLit_wrap p _ hqp, dropSpaces_nospace ',' (by decide)]
      have hc1 : ¬ (',' = ')') := by decide
      simp only [if_neg hc1, if_pos rfl, if_true, dropSpaces_space,
        dropSpaces_nospace '"' (by decide), parseLit_quoteLiteral,
        dropSpaces_nospace ',' (by decide), parseArgs_space]
      rw [ih f tail (by simp) (fun r hr => hq r (List.mem_cons_of_mem p hr))
        (by simp at hf ⊢; omega)]
      simp [valsOf]

theorem printedArgs_length (parts : List Str) (h : parts ≠ []) :
    2 * parts.length ≤ (printedArgs parts).length := by
  induction parts with
  | nil => cases h rfl
  | cons p ps ih =>
    cases ps with
    | nil => simp [printedArgs, xpWrap]
    | cons q qs =>
      have hle := ih (by simp)
      simp only [printedArgs, xpWrap] at hle ⊢
      simp only [List.length_append, List.length_cons] at hle ⊢
      simp at hle ⊢
      omega

/-- Claim C1: for every label containing an apostrophe, the Cell Resolver's
literal-escaping construction (`_string_to_xpath_expr`: split on the quote
character and re-join as an XPath `concat` expression) produces a query
expression that evaluates, under XPath string-literal semantics, to exactly
the original label — escaping never alters the matched value. -/
theorem xpathEscape_preserves_label (s : Str) (h : quoteChar ∈ s) :
    evalXPathStringExpr (stringToXPathExpr s) = some s := by
  have hjoin : stringToXPathExpr s =
      str "concat(" ++ (printedArgs (pySplitQuote s) ++ str ")") := by
    simp only [stringToXPathExpr, if_pos h, intercalate_map_xpWrap]
    simp
  have hpre : pyStartsWith (str "concat(") (stringToXPathExpr s) = true := by
    rw [hjoin]
    simp [pyStartsWith, List.isPrefixOf_iff_prefix]
  have hdrop : (stringToXPathExpr s).drop 7 = printedArgs (pySplitQuote s) ++ str ")" := by
    rw [hjoin]
    have h7 : (str "concat(").length = 7 := by decide
    rw [List.drop_left' h7]
  have hfuel : 2 * (pySplitQuote s).length ≤ (stringToXPathExpr s).length + 1 := by
    have h1 := printedArgs_length (pySplitQuote s) (pySplitQuote_ne_nil s)
    rw [hjoin]
    simp only [List.length_append]
    omega
  have hclose : str ")" = ')' :: [] := by decide
  simp only [evalXPathStringExpr, if_pos hpre, hdrop, hclose,
    parseArgs_printed (pySplitQuote s) ((stringToXPathExpr s).length + 1) []
      (pySplitQuote_ne_nil s) (pySplitQuote_no_quote s) hfuel]
  rw [flatten_valsOf, pySplitQuote_intercalate]

/-- Witness for C1 at the concrete label "it's". -/
theorem xpathEscape_preserves_label_witness :
    evalXPathStringExpr (stringToXPathExpr (str "it's")) = some (str "it's") :=
  xpathEscape_preserves_label (str "it's") (by decide)

/-! ## Text Normalizer (`_get_raw_html_text`, scrape.py)

The function is `html.unescape(re.sub(r"<!--.*?-->", "", innerHTML, DOTALL))`:
remove HTML comments, then decode HTML entities. -/

/-- Find the end of the earliest `-->` in the input and return the suffix
after it (the non-greedy `.*?-->` of the comment regex). -/
def dropToCommentClose : Str → Option Str
  | '-' :: '-' :: '>' :: rest => some rest
  | _ :: rest => dropToCommentClose rest
  | [] => none

/-- One pass of `re.sub(r"<!--.*?-->", "", s, flags=re.DOTALL)`: replace each
leftmost non-overlapping match by the empty string, continuing the scan after
the end of each match (regex-sub semantics, not a fixpoint).  The fuel is an
upper bound on the input length. -/
def removeCommentsGo : Nat → Str → Str
  | 0, s => s
  | fuel + 1, s =>
    match s with
    | [] => []
    | c :: rest =>
      if h : pyStartsWith (str "<!--") s ∧ (dropToCommentClose (s.drop 4)).isSome then
        removeCommentsGo fuel ((dropToCommentClose (s.drop 4)).get h.2)
      else
        c :: removeCommentsGo fuel rest

/-- Embedding of the comment-removal step of `_get_raw_html_text`. -/
def removeComments (s : Str) : Str := removeCommentsGo s.length s

/-- The entity table used to model `html.unescape`, restricted to the
character references appearing in the inputs considered here (Python's
table is the full HTML5 list; unknown references are left intact there
as well, so this restriction only shrinks the decoded set). -/
def entityTable : List (Str × Char) :=
  [(str "lt;", '<'), (str "gt;", '>'), (str "amp;", '&'), (str "quot;", '"'),
   (str "lt", '<'), (str "gt", '>'), (str "amp", '&'), (str "quot", '"')]

/-- Try to match one entity name (longest first) right after a `&`. -/
def matchEntity (s : Str) : Option (Char × Str) :=
  (entityTable.find? (fun e => pyStartsWith e.1 s)).map
    (fun e => (e.2, s.drop e.1.length))

/-- Modelled from Python's `html.unescape`: scan for `&`, decode a known
character reference, leave unknown references intact.  The fuel is an upper
bound on the input length. -/
def unescapeGo : Nat → Str → Str
  | 0, s => s
  | fuel + 1, s =>
    match s with
    | [] => []
    | c :: rest =>
      if c = '&' then
        match matchEntity rest with
        | some (d, r) => d :: unescapeGo fuel r
        | none => c :: unescapeGo fuel rest
      else
        c :: unescapeGo fuel rest

/-- Embedding of the entity-decoding step of `_get_raw_html_text`. -/
def pyUnescape (s : Str) : Str := unescapeGo s.length s

/-- Embedding of `_get_raw_html_text` from `learnable_meta_anki/scrape.py`,
as a function of the element's inner markup: comment removal followed by
HTML-entity decoding. -/
def getRawHtmlText (s : Str) : Str := pyUnescape (removeComments s)

/-- Substring test used to state when no comment opener is present. -/
def hasSubstr (pat : Str) : Str → Bool
  | [] => pyStartsWith pat []
  | c :: rest => pyStartsWith pat (c :: rest) || hasSubstr pat rest

theorem removeCommentsGo_of_no_open (fuel : Nat) :
    ∀ t : Str, hasSubstr (str "<!--") t = false → removeCommentsGo fuel t = t := by
  induction fuel with
  | zero => intro t _; rfl
  | succ f ih =>
    intro t ht
    cases t with
    | nil => rfl
    | cons c rest =>
      simp only [hasSubstr, Bool.or_eq_false_iff] at ht
      rw [removeCommentsGo, dif_neg (by simp [ht.1]), ih rest ht.2]

theorem unescapeGo_of_no_amp (fuel : Nat) :
    ∀ t : Str, '&' ∉ t → unescapeGo fuel t = t := by
  induction fuel with
  | zero => intro t _; rfl
  | succ f ih =>
    intro t ht
    cases t with
    | nil => rfl
    | cons c rest =>
      simp only [List.mem_cons, not_or] at ht
      have hc : ¬ (c = '&') := fun hh => ht.1 hh.symm
      rw [unescapeGo, if_neg hc, ih rest ht.2]

/-- Counterexample for C5: text normalization is not idempotent.  On the
markup `&lt;!--x--&gt;` one normalization yields `<!--x-->` (entity decoding
creates a comment), and a second normalization removes that comment. -/
theorem getRawHtmlText_not_idempotent :
    getRawHtmlText (getRawHtmlText (str "&lt;!--x--&gt;")) ≠
      getRawHtmlText (str "&lt;!--x--&gt;") := by decide

/-- Claim C5 (amended): normalization (`_get_raw_html_text`: comment removal
followed by entity decoding) is idempotent on every input whose normalized
form contains no comment opener `<!--` and no `&`; in general entity decoding
can materialize new comment delimiters or entity references, which a second
pass then consumes. -/
theorem getRawHtmlText_idempotent_of_stable (s : Str)
    (h1 : hasSubstr (str "<!--") (getRawHtmlText s) = false)
    (h2 : '&' ∉ getRawHtmlText s) :
    getRawHtmlText (getRawHtmlText s) = getRawHtmlText s := by
  have ha : removeComments (getRawHtmlText s) = getRawHtmlText s :=
    removeCommentsGo_of_no_open _ _ h1
  calc getRawHtmlText (getRawHtmlText s)
      = pyUnescape (removeComments (getRawHtmlText s)) := rfl
    _ = pyUnescape (getRawHtmlText s) := by rw [ha]
    _ = getRawHtmlText s := unescapeGo_of_no_amp _ _ h2

/-- Witness for the amended C5 on the markup `<p>hi</p><!--x-->`. -/
theorem getRawHtmlText_idempotent_witness :
    getRawHtmlText (getRawHtmlText (str "<p>hi</p><!--x-->")) =
      getRawHtmlText (str "<p>hi</p><!--x-->") :=
  getRawHtmlText_idempotent_of_stable (str "<p>hi</p><!--x-->") (by decide) (by decide)

/-! ## DOM model for the plonkit source loader (`source_loader/plonkit.py`)

A parsed DOM subtree: element nodes with tag, attributes and children, and
text nodes.  `inner_text` (a browser capability) is modelled as the
concatenation of the descendant text nodes in document order; CSS selection
with descendant combinators is modelled by a pre-order traversal. -/

inductive HtmlNode where
  | elem (tag : Str) (attrs : List (Str × Str)) (children : List HtmlNode)
  | text (s : Str)

/-- Downloaded Pillow images are opaque payloads; only success or failure
of a download is observable to the embedded code. -/
abbrev Img := Nat

/-- Attribute lookup (`get_attribute`): `none` models a missing attribute. -/
def getAttr (n : HtmlNode) (name : Str) : Option Str :=
  match n with
  | .text _ => none
  | .elem _ attrs _ => (attrs.find? (fun kv => kv.1 = name)).map (fun kv => kv.2)

/-- Python truthiness of an optional string: `None` and `""` are falsy. -/
def pyTruthyS : Option Str → Bool
  | some (_ :: _) => true
  | _ => false

mutual
def innerTextN : HtmlNode → Str
  | .text s => s
  | .elem _ _ cs => innerTextL cs
def innerTextL : List HtmlNode → Str
  | [] => []
  | c :: cs => innerTextN c ++ innerTextL cs
end

/-- Does the ordered selector-prefix occur as a subsequence of the ancestor
tag list (outermost first)?  This is CSS descendant-combinator matching. -/
def isSubchain : List Str → List Str → Bool
  | [], _ => true
  | _ :: _, [] => false
  | s :: ss, a :: as_ => if a = s then isSubchain ss as_ else isSubchain (s :: ss) as_

/-- Does an element with the given ancestor tags match the selector chain? -/
def matchesSel (sel : List Str) (anc : List Str) (tag : Str) : Bool :=
  match sel.getLast? with
  | none => false
  | some t => t = tag && isSubchain sel.dropLast anc

mutual
def qselNode (sel : List Str) (anc : List Str) : HtmlNode → Option HtmlNode
  | .text _ => none
  | .elem tag attrs children =>
    if matchesSel sel anc tag then some (.elem tag attrs children)
    else qselList sel (anc ++ [tag]) children
def qselList (sel : List Str) (anc : List Str) : List HtmlNode → Option HtmlNode
  | [] => none
  | c :: cs =>
    match qselNode sel anc c with
    | some n => some n
    | none => qselList sel anc cs
end

/-- `element.query_selector` for a descendant-combinator chain of tag names:
first matching descendant in document (pre-order) order. -/
def querySelector (root : HtmlNode) (sel : List Str) : Option HtmlNode :=
  match root with
  | .text _ => none
  | .elem tag _ children => qselList sel [tag] children

mutual
def collectTagNode (t : Str) : HtmlNode → List HtmlNode
  | .text _ => []
  | .elem tag attrs children =>
    (if tag = t then [HtmlNode.elem tag attrs children] else []) ++ collectTagList t children
def collectTagList (t : Str) : List HtmlNode → List HtmlNode
  | [] => []
  | c :: cs => collectTagNode t c ++ collectTagList t cs
end

/-- `element.query_selector_all` for a single tag name, in document order. -/
def queryAllTag (root : HtmlNode) (t : Str) : List HtmlNode :=
  match root with
  | .text _ => []
  | .elem _ _ children => collectTagList t children

/-! ### Content blocks and URL normalization -/

/-- Embedding of `ImageData` from `source_loader/plonkit.py`. -/
structure ImageData where
  src_url : Str
  pillow_image : Option Img
deriving DecidableEq

/-- Embedding of the `StepContentBlock` union from `source_loader/plonkit.py`. -/
inductive StepContentBlock where
  | textContent (text : Str)
  | imageContent (image : ImageData)
  | textWithImageContent (text : Str) (image : ImageData) (image_link_url : Str)
deriving DecidableEq

/-- Embedding of `Step` from `source_loader/plonkit.py`. -/
structure Step where
  title : Str
  blocks : List StepContentBlock

/-- URL absolutization as written in `download_image` (lines 66-71):
`//`-prefixed first, then `/`-prefixed. -/
def normalizeDownloadUrl (url : Str) : Str :=
  if pyStartsWith (str "//") url then str "https:" ++ url
  else if pyStartsWith (str "/") url then str "https://www.plonkit.net" ++ url
  else url

/-- URL absolutization as written in `extract_text_with_link_replacement`
(lines 105-109): `/`-prefixed first, then `//`-prefixed. -/
def normalizeHref (href : Str) : Str :=
  if pyStartsWith (str "/") href then str "https://www.plonkit.net" ++ href
  else if pyStartsWith (str "//") href then str "https:" ++ href
  else href

/-- URL absolutization as written inline in `parse_step_content_section`
(lines 147-155 and 181-185): guarded by truthiness, `/`-prefixed checked
first, then `//`-prefixed. -/
def normalizeClassifierUrl : Option Str → Option Str
  | none => none
  | some s =>
    some (if s ≠ [] ∧ pyStartsWith (str "/") s then str "https://www.plonkit.net" ++ s
          else if s ≠ [] ∧ pyStartsWith (str "//") s then str "https:" ++ s
          else s)

/-- Embedding of `download_image`: absolutize, then fetch via the download
oracle `dl` (network and decoding are the environment; `none` is failure). -/
def downloadImage (dl : Str → Option Img) (url : Str) : Option Img :=
  dl (normalizeDownloadUrl url)

/-- Python `str.replace` (all non-overlapping occurrences, left to right),
with fuel bounding the scan length. -/
def pyReplaceGo (pat rep : Str) : Nat → Str → Str
  | 0, s => s
  | fuel + 1, s =>
    match s with
    | [] => []
    | c :: rest =>
      if pyStartsWith pat s then rep ++ pyReplaceGo pat rep fuel (s.drop pat.length)
      else c :: pyReplaceGo pat rep fuel rest

def pyReplace (s pat rep : Str) : Str :=
  if pat = [] then s else pyReplaceGo pat rep s.length s

/-- Python dict assignment on an insertion-ordered association list:
an existing key keeps its position and gets the new value. -/
def dictInsert (d : List (Str × Str)) (k v : Str) : List (Str × Str) :=
  if (d.find? (fun kv => kv.1 = k)).isSome then
    d.map (fun kv => if kv.1 = k then (k, v) else kv)
  else d ++ [(k, v)]

/-- Embedding of `extract_text_with_link_replacement`: collect each anchor's
(text, absolutized href) pair into an insertion-ordered dict, then replace
every occurrence of each link text in the element's inner text, and strip. -/
def extractTextWithLinkReplacement (sec : HtmlNode) : Str :=
  let links := queryAllTag sec (str "a")
  let reps := links.foldl
    (fun d ln =>
      match getAttr ln (str "href"), innerTextN ln with
      | some (h :: hs), (t :: ts) => dictInsert d (t :: ts) (normalizeHref (h :: hs))
      | _, _ => d)
    []
  pyStrip (reps.foldl (fun acc kv => pyReplace acc kv.1 kv.2) (innerTextN sec))

/-- Embedding of `parse_step_content_section` from `source_loader/plonkit.py`:
figure>a>img ⇒ text-with-image; else any img ⇒ image-only; else text-only. -/
def parseStepContentSection (dl : Str → Option Img) (sec : HtmlNode) : StepContentBlock :=
  match querySelector sec [str "figure", str "a", str "img"] with
  | some figImg =>
    let src0 := getAttr figImg (str "src")
    let src1 := if pyTruthyS src0 then src0 else getAttr figImg (str "data-src")
    let url0 : Option Str :=
      match querySelector sec [str "figure", str "a"] with
      | some le => getAttr le (str "href")
      | none => some []
    let src2 := normalizeClassifierUrl src1
    let url1 := normalizeClassifierUrl url0
    let pillow := if pyTruthyS src2 then downloadImage dl (src2.getD []) else none
    .textWithImageContent (extractTextWithLinkReplacement sec)
      ⟨src2.getD [], pillow⟩ (url1.getD [])
  | none =>
    match querySelector sec [str "img"] with
    | some img =>
      let src0 := getAttr img (str "src")
      let src1 := if pyTruthyS src0 then src0 else getAttr img (str "data-src")
      let src2 := normalizeClassifierUrl src1
      let pillow := if pyTruthyS src2 then downloadImage dl (src2.getD []) else none
      .imageContent ⟨src2.getD [], pillow⟩
    | none => .textContent (extractTextWithLinkReplacement sec)

/-! ### Step segmentation (`parse_subpage`) -/

/-- The en dash accepted by the heading pattern. -/
def enDash : Char := Char.ofNat 0x2013

/-- Backtracking tail of the heading regex, `\s*(.+)`: the longest
whitespace run such that the remainder starts with a non-newline character;
the captured group is the remainder up to the next newline. -/
def stepTailMatch : Str → Option Str
  | [] => none
  | c :: rest =>
    if isPySpace c then
      match stepTailMatch rest with
      | some g => some g
      | none =>
        if c ≠ '\n' then some ((c :: rest).takeWhile (fun d => d ≠ '\n')) else none
    else some ((c :: rest).takeWhile (fun d => d ≠ '\n'))

/-- Embedding of `re.match(r'Step\s+\d+\s*[-–]\s*(.+)', text, re.IGNORECASE)`
from `parse_subpage`: returns the captured group on a match. -/
def stepPatternMatch (s : Str) : Option Str :=
  match s with
  | c1 :: c2 :: c3 :: c4 :: rest =>
    if c1.toLower = 's' ∧ c2.toLower = 't' ∧ c3.toLower = 'e' ∧ c4.toLower = 'p' then
      let r2 := rest.dropWhile isPySpace
      if rest.takeWhile isPySpace = [] then none
      else if r2.takeWhile (fun c => c.isDigit) = [] then none
      else
        match (r2.dropWhile (fun c => c.isDigit)).dropWhile isPySpace with
        | d :: r5 => if d = '-' ∨ d = enDash then stepTailMatch r5 else none
        | [] => none
    else none
  | _ => none

/-- The state-machine loop of `parse_subpage` (lines 265-299): `cur` is
`current_step`, `acc` is `steps`. -/
def parseSubpageLoop (dl : Str → Option Img) :
    List HtmlNode → Option Step → List Step → List Step
  | [], cur, acc =>
    match cur with
    | some st => acc ++ [st]
    | none => acc
  | sec :: rest, cur, acc =>
    match stepPatternMatch (pyStrip (innerTextN sec)) with
    | some g =>
      let acc2 := match cur with | some st => acc ++ [st] | none => acc
      parseSubpageLoop dl rest (some ⟨pyStrip g, []⟩) acc2
    | none =>
      match cur with
      | some st =>
        parseSubpageLoop dl rest
          (some ⟨st.title, st.blocks ++ [parseStepContentSection dl sec]⟩) acc
      | none => parseSubpageLoop dl rest none acc

/-- Embedding of the section-processing part of `parse_subpage`: page
navigation and the `body main article` / `section` queries are the browser
environment, so the model takes the ordered section list directly. -/
def parseSubpageSections (dl : Str → Option Img) (sections : List HtmlNode) : List Step :=
  parseSubpageLoop dl sections none []

/-- Download oracle that fails on every URL (used in concrete fixtures). -/
def dlNone : Str → Option Img := fun _ => none

/-- A section whose inner text is the given string. -/
def hSection (t : String) : HtmlNode := .elem (str "section") [] [.text (str t)]

/-- Seven sections with heading-pattern matches exactly at positions 0, 3, 5. -/
def c2Sections : List HtmlNode :=
  [hSection "Step 1 - Alpha", hSection "one", hSection "two", hSection "Step 2 - Beta",
   hSection "three", hSection "Step 3 - Gamma", hSection "four"]

/-- Counterexample for C2: on seven sections with heading matches exactly at
positions 0, 3 and 5 the segmenter's block counts are {2,1,1}, not {3,2,2}
(a heading section opens a step but is not itself a block). -/
theorem step_segmenter_not_three_two_two :
    Multiset.ofList ((parseSubpageSections dlNone c2Sections).map
      (fun st => st.blocks.length)) ≠ ({3, 2, 2} : Multiset Nat) := by decide

theorem parseSubpageLoop_no_heading (dl : Str → Option Img) (sections : List HtmlNode) :
    ∀ acc : List Step,
    (∀ s ∈ sections, stepPatternMatch (pyStrip (innerTextN s)) = none) →
    parseSubpageLoop dl sections none acc = acc := by
  induction sections with
  | nil => intro acc _; rfl
  | cons sec rest ih =>
    intro acc h
    rw [parseSubpageLoop]
    rw [h sec (List.mem_cons_self sec rest)]
    exact ih acc (fun s hs => h s (List.mem_cons_of_mem sec hs))

/-- Claim C2 (amended): (1) an input sequence with no heading matches
produces zero steps (all content discarded); (2) an ordered input of 7
sections whose heading matches are exactly at positions 0, 3 and 5 produces
exactly 3 steps with block counts 2, 1 and 1 — the heading sections open the
steps but are not themselves content blocks. -/
theorem step_segmenter_behaviour :
    (∀ (dl : Str → Option Img) (sections : List HtmlNode),
      (∀ s ∈ sections, stepPatternMatch (pyStrip (innerTextN s)) = none) →
      parseSubpageSections dl sections = []) ∧
    (∀ (dl : Str → Option Img) (s0 s1 s2 s3 s4 s5 s6 : HtmlNode) (t0 t3 t5 : Str),
      stepPatternMatch (pyStrip (innerTextN s0)) = some t0 →
      stepPatternMatch (pyStrip (innerTextN s1)) = none →
      stepPatternMatch (pyStrip (innerTextN s2)) = none →
      stepPatternMatch (pyStrip (innerTextN s3)) = some t3 →
      stepPatternMatch (pyStrip (innerTextN s4)) = none →
      stepPatternMatch (pyStrip (innerTextN s5)) = some t5 →
      stepPatternMatch (pyStrip (innerTextN s6)) = none →
      (parseSubpageSections dl [s0, s1, s2, s3, s4, s5, s6]).map
        (fun st => st.blocks.length) = [2, 1, 1]) := by
  constructor
  · intro dl sections h
    exact parseSubpageLoop_no_heading dl sections [] h
  · intro dl s0 s1 s2 s3 s4 s5 s6 t0 t3 t5 h0 h1 h2 h3 h4 h5 h6
    simp only [parseSubpageSections, parseSubpageLoop, h0, h1, h2, h3, h4, h5, h6]
    simp

/-- Witness for the amended C2 on concrete sections. -/
theorem step_segmenter_behaviour_witness :
    parseSubpageSections dlNone [hSection "intro text"] = [] ∧
    (parseSubpageSections dlNone c2Sections).map (fun st => st.blocks.length) = [2, 1, 1] :=
  ⟨step_segmenter_behaviour.1 dlNone [hSection "intro text"] (by decide),
   step_segmenter_behaviour.2 dlNone (hSection "Step 1 - Alpha") (hSection "one")
     (hSection "two") (hSection "Step 2 - Beta") (hSection "three")
     (hSection "Step 3 - Gamma") (hSection "four") (str "Alpha") (str "Beta") (str "Gamma")
     (by decide) (by decide) (by decide) (by decide) (by decide) (by decide) (by decide)⟩

/-! ### Content classifier shape (C3) and URL normalization (C7) -/

/-- The three content shapes of the classifier. -/
inductive BlockShape where
  | textOnly
  | imageOnly
  | textWithImage
deriving DecidableEq

def blockShape : StepContentBlock → BlockShape
  | .textContent _ => .textOnly
  | .imageContent _ => .imageOnly
  | .textWithImageContent _ _ _ => .textWithImage

/-- Fixture (a): a section with only a paragraph. -/
def fixtureTextSection : HtmlNode :=
  .elem (str "section") [] [.elem (str "p") [] [.text (str "Just a paragraph.")]]

/-- Fixture (b): a section with a bare img. -/
def fixtureImgSection : HtmlNode :=
  .elem (str "section") [] [.elem (str "img") [(str "src", str "/images/a.png")] []]

/-- Fixture (c): a section with figure>a>img plus surrounding text. -/
def fixtureFigureSection : HtmlNode :=
  .elem (str "section") []
    [.elem (str "figure") []
      [.elem (str "a") [(str "href", str "/loc")]
        [.elem (str "img") [(str "src", str "/images/b.png")] []]],
     .elem (str "p") [] [.text (str "Some text.")]]

/-- Claim C3: the classifier decides by a fixed first-match-wins order —
figure>a>img present ⇒ TextWithImage, else any img ⇒ ImageOnly, else
TextOnly — and on the three fixtures (paragraph only / bare img /
figure>a>img with text) returns TextOnly, ImageOnly and TextWithImage. -/
theorem classifier_first_match_order :
    (∀ (dl : Str → Option Img) (sec : HtmlNode),
      blockShape (parseStepContentSection dl sec) =
        if (querySelector sec [str "figure", str "a", str "img"]).isSome then
          BlockShape.textWithImage
        else if (querySelector sec [str "img"]).isSome then BlockShape.imageOnly
        else BlockShape.textOnly) ∧
    blockShape (parseStepContentSection dlNone fixtureTextSection) = BlockShape.textOnly ∧
    blockShape (parseStepContentSection dlNone fixtureImgSection) = BlockShape.imageOnly ∧
    blockShape (parseStepContentSection dlNone fixtureFigureSection) = BlockShape.textWithImage := by
  refine ⟨?_, by decide, by decide, by decide⟩
  intro dl sec
  cases h1 : querySelector sec [str "figure", str "a", str "img"] with
  | some figImg => simp [parseStepContentSection, h1, blockShape]
  | none =>
    cases h2 : querySelector sec [str "img"] with
    | some img => simp [parseStepContentSection, h1, h2, blockShape]
    | none => simp [parseStepContentSection, h1, h2, blockShape]

/-- Projection: the image source of a classified block, when present. -/
def blockImageSrc : StepContentBlock → Option Str
  | .textContent _ => none
  | .imageContent img => some img.src_url
  | .textWithImageContent _ img _ => some img.src_url

/-- Projection: the anchor target of a classified block, when present. -/
def blockLinkUrl : StepContentBlock → Option Str
  | .textWithImageContent _ _ u => some u
  | _ => none

/-- Fixture for C7: a figure>a>img whose src and href are protocol-relative. -/
def fixtureProtoRelSection : HtmlNode :=
  .elem (str "section") []
    [.elem (str "figure") []
      [.elem (str "a") [(str "href", str "//ex.com/p")]
        [.elem (str "img") [(str "src", str "//ex.com/i.png")] []]]]

/-- Claim C7 evaluated at a failing input: because `parse_step_content_section`
tests `startswith('/')` before `startswith('//')`, a protocol-relative URL
takes the root-relative branch, so the classified block carries
`https://www.plonkit.net//ex.com/...` instead of the `https:`-prefixed form
the spec describes (the `//` branch is unreachable; `download_image` orders
the same two tests correctly). -/
theorem classifier_protocol_relative_url_mishandled :
    blockImageSrc (parseStepContentSection dlNone fixtureProtoRelSection) =
      some (str "https://www.plonkit.net//ex.com/i.png") ∧
    blockLinkUrl (parseStepContentSection dlNone fixtureProtoRelSection) =
      some (str "https://www.plonkit.net//ex.com/p") ∧
    blockImageSrc (parseStepContentSection dlNone fixtureProtoRelSection) ≠
      some (str "https://ex.com/i.png") ∧
    blockLinkUrl (parseStepContentSection dlNone fixtureProtoRelSection) ≠
      some (str "https://ex.com/p") := by decide

/-! ## Card, deck and package assembly (`learnable_meta_anki/anki.py`)

`BeautifulSoup` parsing/serialization is abstracted: a `ContentFragment` is
the parsed DOM tree, `find_all("img")` is a pre-order traversal, and the
class-stripped answer field is the transformed tree.  Network downloads are
an oracle `ok : Str → Bool` (HTTP 200 or not, keyed by image URL); Python's
built-in string hash is an oracle `pyhash : Str → Int` (it is salted per
interpreter process via PYTHONHASHSEED). -/

/-- Embedding of `MetaMap` from `learnable_meta_anki/scrape.py`. -/
structure MetaMap where
  name : Str
  author : Str
  description : Str
  map_id : Str
  difficulty : Str

/-- Python `os.path.basename` (POSIX): the part after the last slash. -/
def pyBasename (p : Str) : Str := (p.reverse.takeWhile (fun c => c ≠ '/')).reverse

/-- The query-string strip in `_download_images`: `filename.split("?")[0]`. -/
def stripQuery (f : Str) : Str :=
  if '?' ∈ f then f.takeWhile (fun c => c ≠ '?') else f

/-- Python `os.path.join` for two components (POSIX; an absolute second
component replaces the first). -/
def pyJoin (a b : Str) : Str :=
  if pyStartsWith (str "/") b then b else a ++ str "/" ++ b

/-- Decimal rendering of the enumeration index. -/
def natToStr (n : Nat) : Str := (toString n).data

/-- `soup.find_all("img")`: every img element of the fragment, in document
order (including the fragment root if it is an img). -/
def findAllImgs (n : HtmlNode) : List HtmlNode := collectTagNode (str "img") n

/-- The loop of `_download_images`: `i` enumerates every img tag (also the
ones skipped for a missing src); a file path is produced only when the
download succeeds. -/
def downloadImagesGo (ok : Str → Bool) (workdir : Str) : Nat → List HtmlNode → List Str
  | _, [] => []
  | i, img :: rest =>
    match getAttr img (str "src") with
    | some (c :: cs) =>
      let filename := stripQuery (str "image_" ++ natToStr i ++ str "_" ++ pyBasename (c :: cs))
      if ok (c :: cs) then pyJoin workdir filename :: downloadImagesGo ok workdir (i + 1) rest
      else downloadImagesGo ok workdir (i + 1) rest
    | _ => downloadImagesGo ok workdir (i + 1) rest

/-- Embedding of `_download_images` from `learnable_meta_anki/anki.py`. -/
def downloadImages (ok : Str → Bool) (htmlFragment : HtmlNode) (workdir : Str) : List Str :=
  downloadImagesGo ok workdir 0 (findAllImgs htmlFragment)

mutual
def removeClassN : HtmlNode → HtmlNode
  | .text s => .text s
  | .elem tag attrs cs =>
    .elem tag (attrs.filter (fun kv => kv.1 ≠ str "class")) (removeClassL cs)
def removeClassL : List HtmlNode → List HtmlNode
  | [] => []
  | c :: cs => removeClassN c :: removeClassL cs
end

/-- A config value that is either a single path or a list of paths. -/
inductive PyStrOrList where
  | single (s : Str)
  | multiple (l : List Str)
deriving DecidableEq

/-- The `isinstance(v, str)` coercion: a single value becomes a one-element
list. -/
def asList : PyStrOrList → List Str
  | .single s => [s]
  | .multiple l => l

/-- Embedding of `Config` from `learnable_meta_anki/shared.py`; the dicts are
insertion-ordered association lists. -/
structure Config where
  custom_image : List (Str × PyStrOrList)
  select_image : List (Str × Int)

/-- A note's three fields (`Rule Name`, `Image`, `Answer`). -/
structure Note where
  title : Str
  imageField : Str
  answer : HtmlNode

/-- Python list indexing: negative indices count from the end; out-of-bounds
raises IndexError, modelled as `none`. -/
def pyIndex {α : Type} (l : List α) (k : Int) : Option α :=
  let k2 := if k < 0 then k + l.length else k
  if 0 ≤ k2 then l.get? k2.toNat else none

/-- Embedding of `create_anki_cards_from_meta` from
`learnable_meta_anki/anki.py`: download the fragment's images, choose the
question images by the three-tier override policy (custom list > 1-based
select index, IndexError → empty > all content images), and emit one note
per question image.  Returns (notes, media files). -/
def createAnkiCardsFromMeta (ok : Str → Bool) (config : Config) (workdir : Str)
    (metaHtmlContent : HtmlNode) (metaName : Str) : List Note × List Str :=
  let contentImages := downloadImages ok metaHtmlContent workdir
  let mediaFiles := contentImages
  let questionImages :=
    match config.custom_image.find? (fun (kv : Str × PyStrOrList) => kv.1 = metaName) with
    | some kv => asList kv.2
    | none =>
      match config.select_image.find? (fun (kv : Str × Int) => kv.1 = metaName) with
      | some kv =>
        match pyIndex contentImages (kv.2 - 1) with
        | some img => [img]
        | none => []
      | none => contentImages
  (questionImages.map (fun image =>
    ⟨metaName, str "<img src=" ++ pyBasename image ++ str ">", removeClassN metaHtmlContent⟩),
   mediaFiles)

/-- Embedding of `genanki.Deck` as used here. -/
structure Deck where
  deck_id : Int
  name : Str
  description : Str
  notes : List Note

/-- The per-meta loop of `create_anki_deck`: accumulate notes and media. -/
def createAnkiDeckGo (ok : Str → Bool) (config : Config) (workdir : Str) :
    List (Str × HtmlNode) → List Note × List Str
  | [] => ([], [])
  | (metaName, html) :: rest =>
    let nm := createAnkiCardsFromMeta ok config workdir html metaName
    let nmR := createAnkiDeckGo ok config workdir rest
    (nm.1 ++ nmR.1, nm.2 ++ nmR.2)

/-- Embedding of `create_anki_deck` from `learnable_meta_anki/anki.py`:
deck id is Python's `hash(meta_map.name)` (the `pyhash` oracle). -/
def createAnkiDeck (pyhash : Str → Int) (ok : Str → Bool) (metaMap : MetaMap)
    (metas : List (Str × HtmlNode)) (config : Config) (workdir : Str) : Deck × List Str :=
  let nm := createAnkiDeckGo ok config workdir metas
  (⟨pyhash metaMap.name, str "Learnable Meta::" ++ metaMap.name,
    metaMap.description ++
      str "\n\nCreated from https://geometa-web.pages.dev/ using github.com/atollk/geoguessr-scripts.",
    nm.1⟩, nm.2)

/-- Embedding of `genanki.Package` as used here. -/
structure Package where
  decks : List Deck
  media_files : List Str

/-- The operator-supplied custom image paths enumerated by the override
config: `os.path.join("learnable_meta_anki", "images", i)` for every value. -/
def dedupAcc (seen : List Str) : List Str → List Str
  | [] => []
  | x :: xs => if x ∈ seen then dedupAcc seen xs else x :: dedupAcc (x :: seen) xs

/-- Model of Python's `list({...})` set construction: one occurrence per
distinct path (the set's iteration order is unspecified in Python; this
model keeps first occurrences, and only membership and counts of this part
are relied upon). -/
def pySetList (l : List Str) : List Str := dedupAcc [] l

def customImagePaths (config : Config) : List Str :=
  (config.custom_image.map (fun kv => asList kv.2)).flatten.map
    (fun i => pyJoin (pyJoin (str "learnable_meta_anki") (str "images")) i)

/-- The per-map loop of `create_anki_package`. -/
def createAnkiPackageGo (pyhash : Str → Int) (ok : Str → Bool)
    (scrape : MetaMap → List (Str × HtmlNode)) (config : Config) (workdir : Str) :
    List MetaMap → Package → Package
  | [], pkg => pkg
  | m :: ms, pkg =>
    let dm := createAnkiDeck pyhash ok m (scrape m) config workdir
    createAnkiPackageGo pyhash ok scrape config workdir ms
      ⟨pkg.decks ++ [dm.1], pkg.media_files ++ dm.2⟩

/-- Embedding of `create_anki_package` from `learnable_meta_anki/anki.py`:
the media list starts as the deduplicated set of custom image paths (Python
builds a set; its iteration order is unspecified, so only membership and
counts of this part are meaningful), then each deck's media list is appended
without deduplication.  `scrape_map` is the environment oracle `scrape`. -/
def createAnkiPackage (pyhash : Str → Int) (ok : Str → Bool)
    (scrape : MetaMap → List (Str × HtmlNode)) (workdir : Str) (config : Config)
    (mapList : List MetaMap) : Package :=
  createAnkiPackageGo pyhash ok scrape config workdir mapList
    ⟨[], pySetList (customImagePaths config)⟩

/-! ### Fixtures and theorems for card assembly (C4, C9), package media (C6)
and deck identity (C8) -/

/-- Download oracle where every request succeeds. -/
def okAll : Str → Bool := fun _ => true

/-- A fragment with one image. -/
def oneImgFragment : HtmlNode :=
  .elem (str "div") [] [.elem (str "img") [(str "src", str "http://h/x.png")] []]

/-- A fragment with three images. -/
def threeImgFragment : HtmlNode :=
  .elem (str "div") []
    [.elem (str "img") [(str "src", str "http://h/a.png")] [],
     .elem (str "img") [(str "src", str "http://h/b.png")] [],
     .elem (str "img") [(str "src", str "http://h/c.png")] []]

/-- Config that selects image index 0 for entry `m`. -/
def selectZeroConfig : Config := ⟨[], [(str "m", 0)]⟩

/-- Config that selects image index 5 for entry `m`. -/
def selectFiveConfig : Config := ⟨[], [(str "m", 5)]⟩

theorem pyIndex_none {α : Type} (l : List α) (k : Int)
    (h : (l.length : Int) ≤ k ∨ k < -(l.length : Int)) : pyIndex l k = none := by
  rcases h with h | h
  · have hk : ¬ (k < 0) := by omega
    simp only [pyIndex, if_neg hk, if_pos (by omega : (0 : Int) ≤ k)]
    exact List.get?_eq_none.mpr (by omega)
  · have hk : k < 0 := by omega
    have hk2 : ¬ ((0 : Int) ≤ k + l.length) := by omega
    simp only [pyIndex, if_pos hk, if_neg hk2]

/-- Counterexample for C4: the explicit index 0 is outside 1..n, yet with one
extracted image the entry yields one card (Python's negative indexing makes
`content_images[0 - 1]` the last image), not zero. -/
theorem select_image_index_zero_yields_card :
    ((createAnkiCardsFromMeta okAll selectZeroConfig (str "w") oneImgFragment (str "m")).1).length = 1 ∧
    ((createAnkiCardsFromMeta okAll selectZeroConfig (str "w") oneImgFragment (str "m")).1).length ≠ 0 := by
  constructor
  · decide
  · decide

/-- Claim C4 (amended): for an entry with a select_image override and no
custom_image override, if the index `i` is out of Python's indexing range —
`i > n` or `i ≤ -n` for `n` extracted images (the IndexError condition for
`content_images[i-1]`) — card assembly selects an empty image list and emits
zero cards, without a fault, and still returns the full media list; an index
in `[1-n, 0]`, although not between 1 and n, instead selects an image via
Python's negative indexing. -/
theorem select_image_out_of_range_empty (ok : Str → Bool) (config : Config)
    (workdir : Str) (html : HtmlNode) (metaName : Str) (kv : Str × Int)
    (hcustom : config.custom_image.find? (fun (e : Str × PyStrOrList) => e.1 = metaName) = none)
    (hselect : config.select_image.find? (fun (e : Str × Int) => e.1 = metaName) = some kv)
    (hrange : ((downloadImages ok html workdir).length : Int) < kv.2 ∨
      kv.2 ≤ -((downloadImages ok html workdir).length : Int)) :
    (createAnkiCardsFromMeta ok config workdir html metaName).1 = [] ∧
    (createAnkiCardsFromMeta ok config workdir html metaName).2 =
      downloadImages ok html workdir := by
  have hidx : pyIndex (downloadImages ok html workdir) (kv.2 - 1) = none :=
    pyIndex_none _ _ (by omega)
  constructor
  · simp only [createAnkiCardsFromMeta, hcustom, hselect, hidx]
    simp
  · simp only [createAnkiCardsFromMeta, hcustom, hselect, hidx]

/-- Witness for the amended C4: index 5 against 3 extracted images. -/
theorem select_image_out_of_range_empty_witness :
    (createAnkiCardsFromMeta okAll selectFiveConfig (str "w") threeImgFragment (str "m")).1 = [] ∧
    (createAnkiCardsFromMeta okAll selectFiveConfig (str "w") threeImgFragment (str "m")).2 =
      downloadImages okAll threeImgFragment (str "w") :=
  select_image_out_of_range_empty okAll selectFiveConfig (str "w") threeImgFragment
    (str "m") (str "m", 5) (by decide) (by decide) (by decide)

/-- Claim C9: the per-entry media list equals exactly the successfully
downloaded content images of the entry's markup, and does not depend on the
config at all — in particular two configs differing in their custom_image
and select_image entries yield identical media lists, and custom images are
never added to the per-entry media list. -/
theorem per_entry_media_independent_of_overrides (ok : Str → Bool)
    (config config2 : Config) (workdir : Str) (html : HtmlNode) (metaName : Str) :
    (createAnkiCardsFromMeta ok config workdir html metaName).2 =
      downloadImages ok html workdir ∧
    (createAnkiCardsFromMeta ok config workdir html metaName).2 =
      (createAnkiCardsFromMeta ok config2 workdir html metaName).2 := by
  constructor
  · rfl
  · rfl

/-- Hash oracle standing for one interpreter process. -/
def zeroHash : Str → Int := fun _ => 0

def mapA : MetaMap := ⟨str "Map A", str "au", str "da", str "ida", str "?"⟩

def mapB : MetaMap := ⟨str "Map B", str "au", str "db", str "idb", str "?"⟩

/-- Scrape oracle: both maps carry one entry whose markup holds the same
image, so both decks download to the same local path in the shared workdir. -/
def scrapeShared : MetaMap → List (Str × HtmlNode) := fun _ => [(str "meta", oneImgFragment)]

def c6Package : Package :=
  createAnkiPackage zeroHash okAll scrapeShared (str "w") ⟨[], []⟩ [mapA, mapB]

/-- Counterexample for C6: two decks whose cards reference the same absolute
local path contribute it twice to the package media list — only the custom
image set is deduplicated, per-deck media are appended as-is. -/
theorem package_media_duplicate_across_decks :
    List.count (str "w/image_0_x.png") c6Package.media_files = 2 ∧
    ¬ List.count (str "w/image_0_x.png") c6Package.media_files = 1 := by
  constructor
  · decide
  · decide

theorem count_dedupAcc (p : Str) (l : List Str) :
    ∀ seen : List Str, List.count p (dedupAcc seen l) =
      if p ∈ seen then 0 else if p ∈ l then 1 else 0 := by
  induction l with
  | nil => intro seen; simp [dedupAcc]
  | cons x xs ih =>
    intro seen
    by_cases hx : x ∈ seen
    · rw [dedupAcc, if_pos hx, ih seen]
      by_cases hps : p ∈ seen
      · simp [hps]
      · have hpx : ¬ (p = x) := fun hh => hps (hh ▸ hx)
        simp [hps, hpx]
    · rw [dedupAcc, if_neg hx]
      by_cases hpx : p = x
      · subst hpx
        have hmem : p ∈ p :: seen := List.mem_cons_self p seen
        simp [List.count_cons, ih (p :: seen), hmem, hx]
      · have h2 : (p ∈ x :: seen) = (p ∈ seen) := by simp [List.mem_cons, hpx]
        simp [List.count_cons, ih (x :: seen), h2, hpx]

theorem count_pySetList (p : Str) (l : List Str) :
    List.count p (pySetList l) = if p ∈ l then 1 else 0 := by
  rw [pySetList, count_dedupAcc]
  simp

theorem createAnkiPackageGo_media (pyhash : Str → Int) (ok : Str → Bool)
    (scrape : MetaMap → List (Str × HtmlNode)) (config : Config) (workdir : Str)
    (ms : List MetaMap) :
    ∀ pkg : Package,
    (createAnkiPackageGo pyhash ok scrape config workdir ms pkg).media_files =
      pkg.media_files ++
        (ms.map (fun m => (createAnkiDeck pyhash ok m (scrape m) config workdir).2)).flatten := by
  induction ms with
  | nil => intro pkg; simp [createAnkiPackageGo]
  | cons m rest ih =>
    intro pkg
    rw [createAnkiPackageGo, ih]
    simp

/-- Claim C6 (amended): in the final package's media file list, each
occurrence count decomposes as: one occurrence if the path is among the
(deduplicated) operator-supplied custom images, plus one occurrence per deck
whose media list contains it — i.e. only the custom image set is
deduplicated, and a path referenced by two decks occurs once per deck. -/
theorem package_media_count (pyhash : Str → Int) (ok : Str → Bool)
    (scrape : MetaMap → List (Str × HtmlNode)) (workdir : Str) (config : Config)
    (mapList : List MetaMap) (p : Str) :
    List.count p (createAnkiPackage pyhash ok scrape workdir config mapList).media_files =
      (if p ∈ customImagePaths config then 1 else 0) +
      (mapList.map
        (fun m => List.count p (createAnkiDeck pyhash ok m (scrape m) config workdir).2)).sum := by
  rw [createAnkiPackage, createAnkiPackageGo_media]
  simp only [List.count_append, List.count_flatten, List.map_map, count_pySetList]
  rfl

/-- Claim C8: the deck id is exactly the Python string hash of the page
label — and that hash is an oracle of the interpreter process (salted via
PYTHONHASHSEED), so the id is not determined by the label alone: two process
hash functions can give the same label different ids. -/
theorem deck_id_is_process_hash_of_label :
    (∀ (pyhash : Str → Int) (ok : Str → Bool) (m : MetaMap)
      (metas : List (Str × HtmlNode)) (config : Config) (workdir : Str),
      (createAnkiDeck pyhash ok m metas config workdir).1.deck_id = pyhash m.name) ∧
    (∃ h1 h2 : Str → Int,
      (createAnkiDeck h1 okAll mapA [] ⟨[], []⟩ (str "w")).1.deck_id ≠
        (createAnkiDeck h2 okAll mapA [] ⟨[], []⟩ (str "w")).1.deck_id) :=
  ⟨fun _ _ _ _ _ _ => rfl, ⟨fun _ => 0, fun _ => 1, by decide⟩⟩

/-! ## Config sorting (`sort_config_file.py`, `sort_dict`)

JSON-like values: dicts are insertion-ordered association lists with string
keys, lists are ordered, and every other value (string, number, bool, null)
is an opaque atom, since `sort_dict` returns non-dict/non-list values
unchanged. -/

inductive Json where
  | atom (s : Str)
  | list (xs : List Json)
  | dict (kvs : List (Str × Json))

/-- The comparator of Python's `sorted(d.items())` on dict items: tuples are
compared by their string keys first (lexicographic by code point); the value
comparison Python would fall back to on equal keys is unreachable for dict
items, whose keys are unique, so the comparator is modelled on keys alone. -/
def keyLe (a b : Str × Json) : Bool := decide (a.1 ≤ b.1)

/-- Embedding of `sort_dict` from `learnable_meta_anki/sort_config_file.py`:
a dict's items are sorted by key and the values recursively sorted; a list
keeps its order with elements recursively sorted; anything else is
returned unchanged. -/
def sortDict : Json → Json
  | .atom s => .atom s
  | .list xs => .list (xs.attach.map (fun x => sortDict x.1))
  | .dict kvs => .dict ((kvs.mergeSort keyLe).attach.map (fun kv => (kv.1.1, sortDict kv.1.2)))
termination_by j => sizeOf j
decreasing_by
  · have h1 := List.sizeOf_lt_of_mem x.2
    cases x
    simp at h1 ⊢
    omega
  · have hmem : kv.1 ∈ kvs := (List.mem_mergeSort).mp kv.2
    have h1 := List.sizeOf_lt_of_mem hmem
    cases kv
    rename_i kv1 hkv1
    cases kv1
    simp at h1 ⊢
    omega

theorem sortDict_atom (s : Str) : sortDict (.atom s) = .atom s := by
  rw [sortDict]

theorem sortDict_list (xs : List Json) :
    sortDict (.list xs) = .list (xs.map sortDict) := by
  rw [sortDict, List.attach_map_coe]

theorem sortDict_dict (kvs : List (Str × Json)) :
    sortDict (.dict kvs) =
      .dict ((kvs.mergeSort keyLe).map (fun kv => (kv.1, sortDict kv.2))) := by
  rw [sortDict, ← List.attach_map_coe (kvs.mergeSort keyLe) (fun kv => (kv.1, sortDict kv.2))]

/-- Induction over the nested `Json` type with memberships. -/
theorem json_induction {motive : Json → Prop}
    (hatom : ∀ s, motive (.atom s))
    (hlist : ∀ xs, (∀ x ∈ xs, motive x) → motive (.list xs))
    (hdict : ∀ kvs, (∀ kv ∈ kvs, motive kv.2) → motive (.dict kvs)) :
    ∀ j, motive j
  | .atom s => hatom s
  | .list xs => hlist xs (fun x _ => json_induction hatom hlist hdict x)
  | .dict kvs => hdict kvs (fun kv _ => json_induction hatom hlist hdict kv.2)
termination_by j => sizeOf j
decreasing_by
  · rename_i hx
    have h1 := List.sizeOf_lt_of_mem hx
    simp only [Json.list.sizeOf_spec]
    omega
  · rename_i kv hkv
    have h1 := List.sizeOf_lt_of_mem hkv
    cases kv
    simp only [Json.dict.sizeOf_spec, Prod.mk.sizeOf_spec] at h1 ⊢
    omega

theorem keyLe_trans (a b c : Str × Json) : keyLe a b → keyLe b c → keyLe a c := by
  simp only [keyLe, decide_eq_true_eq]
  exact le_trans

theorem keyLe_total (a b : Str × Json) : keyLe a b || keyLe b a := by
  simp only [keyLe]
  by_cases h : a.1 ≤ b.1
  · simp [h]
  · simp [le_of_not_le h]

theorem sortDict_idem : ∀ j, sortDict (sortDict j) = sortDict j := by
  intro j
  induction j using json_induction with
  | hatom s => rw [sortDict_atom, sortDict_atom]
  | hlist xs ih =>
    rw [sortDict_list, sortDict_list, List.map_map]
    congr 1
    exact List.map_congr_left (fun x hx => ih x hx)
  | hdict kvs ih =>
    rw [sortDict_dict, sortDict_dict]
    have hsorted : ((kvs.mergeSort keyLe).map
        (fun kv => (kv.1, sortDict kv.2))).Pairwise (fun a b => keyLe a b = true) := by
      have h1 : (kvs.mergeSort keyLe).Pairwise (fun a b => keyLe a b = true) :=
        List.sorted_mergeSort keyLe_trans keyLe_total kvs
      exact h1.map _ (fun a b hab => by
        simpa only [keyLe] using hab)
    rw [List.mergeSort_of_sorted hsorted, List.map_map]
    congr 1
    refine List.map_congr_left (fun kv hkv => ?_)
    have hmem : kv ∈ kvs := (List.mem_mergeSort).mp hkv
    simp only [Function.comp]
    rw [ih kv hmem]

/-- Claim C10: `sort_dict` is idempotent on every JSON-like value, and it
never adds, removes or renames dict keys or list elements: an atom is
unchanged, a list maps to its elements recursively sorted in order, and a
dict maps to a permutation of its entries with keys untouched and values
recursively sorted. -/
theorem sort_dict_idempotent_and_preserving :
    (∀ j, sortDict (sortDict j) = sortDict j) ∧
    (∀ s, sortDict (.atom s) = .atom s) ∧
    (∀ xs, sortDict (.list xs) = .list (xs.map sortDict)) ∧
    (∀ kvs, ∃ perm : List (Str × Json), kvs.Perm perm ∧
      sortDict (.dict kvs) = .dict (perm.map (fun kv => (kv.1, sortDict kv.2)))) :=
  ⟨sortDict_idem, sortDict_atom, sortDict_list,
   fun kvs => ⟨kvs.mergeSort keyLe, (List.mergeSort_perm kvs keyLe).symm,
     sortDict_dict kvs⟩⟩
